import Mathlib

/-!
# Queuify: a shallow embedding of the queue runtime

This file embeds the persistence layer (`src/helpers/db.ts`, class
`DBActions`) and the dispatch engine (`QueuifyEngine`) of the Queuify
job-queue library, and proves the behavioural claims about them.

The Redis store backing one queue is modelled per queue: the per-job
record hashes (keys `<ns>:<queue>:runs:<jobId>`) become an association
list from job id to a record of optional hash fields, and the five
status lists (keys `<ns>:<queue>:runs:<status>`) become five Lean lists
whose head is the Redis list head (LEFT). `lpush` prepends, `lmove
LEFT RIGHT` pops the source head and appends to the destination tail,
`lrem key 1 v` removes the first occurrence scanning from the head, and
`lrange 0 -1` reads the whole list head first.
-/

namespace Queuify

/-- The five values of `QUEUIFY_JOB_STATUS` (the `constants` helper is not
part of the provided sources; the spec fixes exactly the five statuses
PENDING, RUNNING, STALLED, COMPLETED, FAILED). -/
inductive Status where
  | pending
  | running
  | stalled
  | completed
  | failed
deriving DecidableEq, Repr

/-- One per-job Redis hash (key `<ns>:<queue>:runs:<jobId>`). Each field is
optional because Redis hashes hold only the fields that some `hset` wrote:
`QUEUIFY_JOB_FIELDS.JOB_ID`, `.DATA`, `.STATUS`, `.FAILED_REASON`. -/
structure JobRecord where
  jobId : Option String
  data : Option String
  status : Option Status
  failedReason : Option String
deriving DecidableEq, Repr

/-- A hash key that no `hset` ever touched: all fields absent. -/
def emptyRecord : JobRecord := ⟨none, none, none, none⟩

/-- The per-queue job-record keyspace: job id ↦ record hash. -/
abbrev Records := List (String × JobRecord)

/-- Read the record hash stored at a job id (Redis key lookup). -/
def lookupRecord : Records → String → Option JobRecord
  | [], _ => none
  | (k, r) :: t, id => if k = id then some r else lookupRecord t id

/-- `hset` on the record key of `id`: update the stored hash through `f`,
creating the hash from `emptyRecord` when the key does not exist yet. -/
def hsetJob : Records → String → (JobRecord → JobRecord) → Records
  | [], id, f => [(id, f emptyRecord)]
  | (k, r) :: t, id, f =>
      if k = id then (k, f r) :: t else (k, r) :: hsetJob t id f

/-- `hset <job> status <st>` (used by `getJobs` and `moveJobsBetweenLists`). -/
def hsetStatus (rs : Records) (id : String) (st : Status) : Records :=
  hsetJob rs id (fun r => { r with status := some st })

/-- The Redis state of one queue: the record keyspace plus the five status
lists, head of each Lean list = Redis LEFT. -/
structure QueueStore where
  records : Records
  pending : List String
  running : List String
  stalled : List String
  completed : List String
  failed : List String
deriving DecidableEq, Repr

/-- The list keyed `<ns>:<queue>:runs:<status>`. -/
def QueueStore.getList (s : QueueStore) : Status → List String
  | .pending => s.pending
  | .running => s.running
  | .stalled => s.stalled
  | .completed => s.completed
  | .failed => s.failed

/-- Overwrite the list keyed by a status. -/
def QueueStore.setList (s : QueueStore) : Status → List String → QueueStore
  | .pending, l => { s with pending := l }
  | .running, l => { s with running := l }
  | .stalled, l => { s with stalled := l }
  | .completed, l => { s with completed := l }
  | .failed, l => { s with failed := l }

/-- `lmove src dst LEFT RIGHT`: pop the head of the `src` list and append it
to the tail of the `dst` list, returning the moved element (`none` when the
source is empty). Popping before pushing makes the `src = dst` case the
Redis rotation. -/
def lmoveLR (s : QueueStore) (src dst : Status) : Option String × QueueStore :=
  match s.getList src with
  | [] => (none, s)
  | x :: xs =>
      let s1 := s.setList src xs
      (some x, s1.setList dst (s1.getList dst ++ [x]))

/-- A job as returned by `DBActions.getJobs`: the `JOB_ID` and `DATA` hash
fields read back by `hmget` (each may be absent), the data already passed
through `decompressData`. -/
structure QJob where
  id : Option String
  data : Option String
deriving DecidableEq, Repr

/-- The `lmove` loop at the top of `DBActions.getJobs`: up to `limit`
times, `lmove <from-list> <running-list> LEFT RIGHT`, stopping on
`if (!jobId) break`. `jobId` is falsy when `lmove` replied `null` (source
empty) **and also when the moved element is the empty string** (`!""` is
truthy in JS): in that second case the break happens after the `lmove`
already ran, so the falsy id has been moved to RUNNING but is not
collected. Returns the collected ids in pop order and the store after all
the moves that ran. -/
def popIds (s : QueueStore) (from_ : Status) : Nat → List String × QueueStore
  | 0 => ([], s)
  | n + 1 =>
      match lmoveLR s from_ .running with
      | (none, s1) => ([], s1)
      | (some x, s1) =>
          if x = "" then ([], s1)
          else (x :: (popIds s1 from_ n).1, (popIds s1 from_ n).2)

/-- `DBActions.getJobs(queueName, from, limit = 1)`. After the `lmove`
loop, if no id was collected the empty list is returned (even when a
falsy empty-string id was already moved to RUNNING by the loop);
otherwise one pipeline `hmget`s the `JOB_ID` and `DATA` fields of every
collected id and a second pipeline `hset`s each collected id's `STATUS`
field to RUNNING — a moved-but-dropped falsy id gets neither read. The
reads see the same field values before or after the status writes, since
the writes touch only the `STATUS` field. `decompressData` is an external
utility (out of the provided sources; the spec scopes it out), so it is a
parameter `dec` here. -/
def getJobs (dec : Option String → Option String) (s : QueueStore)
    (from_ : Status) (limit : Nat := 1) : List QJob × QueueStore :=
  let p := popIds s from_ limit
  if p.1.isEmpty then ([], p.2)
  else
    (p.1.map (fun i =>
        let r := (lookupRecord p.2.records i).getD emptyRecord
        QJob.mk r.jobId (dec r.data)),
      { p.2 with records := p.1.foldl (fun rs i => hsetStatus rs i .running) p.2.records })

/-- `DBActions.completeJob(queueName, jobId)`: one `multi` pipeline doing
`hset <job> status COMPLETED`, `lrem <running-list> 1 jobId`,
`lpush <completed-list> jobId`. -/
def completeJob (s : QueueStore) (jobId : String) : QueueStore :=
  { s with
    records := hsetStatus s.records jobId .completed
    running := s.running.erase jobId
    completed := jobId :: s.completed }

/-- `DBActions.updateJob(queueName, jobId, newData)`: a single
`hset <job> data newData`. -/
def updateJob (s : QueueStore) (jobId : String) (newData : String) : QueueStore :=
  { s with records := hsetJob s.records jobId (fun r => { r with data := some newData }) }

/-- `DBActions.failJob(queueName, jobId, failedReason)`: one `multi`
pipeline doing `hset <job> status FAILED failedReason <reason>`,
`lrem <running-list> 1 jobId`, `lpush <failed-list> jobId`. -/
def failJob (s : QueueStore) (jobId : String) (failedReason : String) : QueueStore :=
  { s with
    records := hsetJob s.records jobId
      (fun r => { r with status := some .failed, failedReason := some failedReason })
    running := s.running.erase jobId
    failed := jobId :: s.failed }

/-- The per-id pipeline step of `DBActions.moveJobsBetweenLists`:
`lmove fromList toList LEFT RIGHT` followed by `hset <jobId> status to`. -/
def moveStep (from_ to_ : Status) (s : QueueStore) (jobId : String) : QueueStore :=
  let s1 := (lmoveLR s from_ to_).2
  { s1 with records := hsetStatus s1.records jobId to_ }

/-- `DBActions.moveJobsBetweenLists(queueName, from, to)`: `lrange` the
whole `from` list (head first), then one pipeline that, for each id read,
`lmove`s the `from` head to the `to` tail and `hset`s that id's status to
`to`; returns the ids read. (The `if (!jobRuns) return []` guard is dead:
`lrange` yields `[]`, which is truthy in JS, so the pipeline path also
covers the empty list.) -/
def moveJobsBetweenLists (s : QueueStore) (from_ to_ : Status) :
    List String × QueueStore :=
  let jobRuns := s.getList from_
  (jobRuns, jobRuns.foldl (moveStep from_ to_) s)

/-- The errors surfaced by the embedded operations. `jobAlreadyExists`
stands for the `JOB_ALREADY_EXISTS(jobId, queueName)` message of the Lua
script's `error_reply`; `alreadyExists` for `ALREADY_EXISTS(QUEUE, name)`;
`missingDb` for the `'Queue db is required'` error (the `messages` helper
file is not among the provided sources, so the errors are represented by
constructors rather than message strings). -/
inductive DBError where
  | jobAlreadyExists (jobId : String)
  | alreadyExists (name : String)
  | missingDb
deriving DecidableEq, Repr

/-- `DBActions.addJob(queueName, jobId, data)`: a single Lua script run by
`eval`, hence one indivisible store operation. It checks `exists` on the
job's record key and replies with the `JOB_ALREADY_EXISTS` error — before
any write — when the key exists; otherwise it `hset`s the record
(`jobId`, `status := PENDING`, `data`) and `lpush`es the id onto the
PENDING list. The returned store is the store the script leaves behind:
unchanged on the error reply. -/
def addJob (s : QueueStore) (jobId : String) (data : String) :
    Option DBError × QueueStore :=
  if (lookupRecord s.records jobId).isSome then
    (some (.jobAlreadyExists jobId), s)
  else
    (none,
      { s with
        records := hsetJob s.records jobId
          (fun r => { r with jobId := some jobId, status := some .pending, data := some data })
        pending := jobId :: s.pending })

/-! ## The dispatch engine (`QueuifyEngine`) -/

/-- `WORKER_STATUS`: a worker is either idle or busy. -/
inductive WorkerStatus where
  | idle
  | busy
deriving DecidableEq, Repr

/-- The registry entry `tWorkerData` of one worker: its locally-assigned
job batch and its status. (The worker routine and its configuration decide
only *how* a drained job is executed; the local-execution path is embedded
separately as `processJobLocal`.) -/
structure WorkerData where
  jobs : List QJob
  status : WorkerStatus
deriving DecidableEq, Repr

/-- Worker registry lookup (`queue.workers.get(workerId)`). -/
def lookupWorker : List (String × WorkerData) → String → Option WorkerData
  | [], _ => none
  | (k, w) :: t, id => if k = id then some w else lookupWorker t id

/-- Worker registry update in place (`queue.workers.set` on a present key
keeps the JS `Map` insertion order). -/
def setWorker : List (String × WorkerData) → String → WorkerData → List (String × WorkerData)
  | [], id, w => [(id, w)]
  | (k, w0) :: t, id, w =>
      if k = id then (k, w) :: t else (k, w0) :: setWorker t id w

/-- `tQueueMapValue`, the Queue Runtime State the engine keeps per queue
name: the store reached through `dbActions` (its Redis state inlined),
the worker registry, the single idle-worker cursor and the stalled-jobs
completion flag. -/
structure QueueMapValue where
  store : QueueStore
  workers : List (String × WorkerData)
  idleWorkerId : String
  isStalledJobsProcessingComplete : Bool
deriving DecidableEq, Repr

/-- `QueuifyEngine.onJobsRequest({queueName, workerId})`, the pool-request
reaction. Unknown worker: no change, no event. Otherwise: while the
stalled flag is unset, fetch from STALLED first (default limit) and set
the flag the first time that fetch comes back empty; if still no job,
fetch from PENDING (default limit); if no job at all, stop; otherwise push
the fetched jobs onto the worker's batch and emit pool-process (the
returned `Bool`). -/
def onJobsRequest (dec : Option String → Option String) (q : QueueMapValue)
    (workerId : String) : QueueMapValue × Bool :=
  match lookupWorker q.workers workerId with
  | none => (q, false)
  | some workerData =>
      let stalledStep : List QJob × QueueStore × Bool :=
        if !q.isStalledJobsProcessingComplete then
          ((getJobs dec q.store .stalled).1, (getJobs dec q.store .stalled).2,
            if (getJobs dec q.store .stalled).1.isEmpty then true
            else q.isStalledJobsProcessingComplete)
        else ([], q.store, q.isStalledJobsProcessingComplete)
      let fetched : List QJob × QueueStore :=
        if stalledStep.1.isEmpty then getJobs dec stalledStep.2.1 .pending
        else (stalledStep.1, stalledStep.2.1)
      if fetched.1.isEmpty then
        ({ q with
            store := fetched.2
            isStalledJobsProcessingComplete := stalledStep.2.2 }, false)
      else
        ({ q with
            store := fetched.2
            isStalledJobsProcessingComplete := stalledStep.2.2
            workers := setWorker q.workers workerId
              { workerData with jobs := workerData.jobs ++ fetched.1 } },
          true)

/-- `QueuifyEngine.startWorkerPool(queue)`: move every RUNNING job to
STALLED and, when nothing was moved, mark stalled processing complete. -/
def startWorkerPool (q : QueueMapValue) : QueueMapValue :=
  { q with
    store := (moveJobsBetweenLists q.store .running .stalled).2
    isStalledJobsProcessingComplete :=
      if (moveJobsBetweenLists q.store .running .stalled).1.isEmpty then true
      else q.isStalledJobsProcessingComplete }

/-- The observable actions of `QueuifyEngine.addWorker`, in execution
order: the startup `moveJobsBetweenLists(RUNNING, STALLED)` call (carrying
the ids it returned), the `this.on(...)` registrations of the queue's
event listeners inside `startWorkers`, and the final worker-added emit. -/
inductive EngineAction where
  | moveAllRunningStalled (moved : List String)
  | activateListeners
  | emitWorkerAdd (workerId : String)
deriving DecidableEq, Repr

/-- `QueuifyEngine.addWorker(queueName, ...)` for a known queue: record
whether workers already exist, insert the fresh worker (idle, empty
batch), and — only when it is the queue's first worker — run
`startWorkers`, i.e. `startWorkerPool` followed by the listener
registrations; finally emit worker-added. The returned trace lists the
actions in the order the code performs them. -/
def addWorker (q : QueueMapValue) (workerId : String) :
    QueueMapValue × List EngineAction :=
  let hasWorkers := !q.workers.isEmpty
  let q1 := { q with workers := setWorker q.workers workerId ⟨[], .idle⟩ }
  if hasWorkers then (q1, [.emitWorkerAdd workerId])
  else
    let moved := (moveJobsBetweenLists q1.store .running .stalled).1
    (startWorkerPool q1,
      [.moveAllRunningStalled moved, .activateListeners, .emitWorkerAdd workerId])

/-- The engine's queue map (`QueuifyEngine.queues`). -/
structure Engine where
  queues : List (String × QueueMapValue)
deriving DecidableEq, Repr

/-- Queue map lookup (`this.queues.get(queueName)`). -/
def lookupQueue : List (String × QueueMapValue) → String → Option QueueMapValue
  | [], _ => none
  | (k, q) :: t, id => if k = id then some q else lookupQueue t id

/-- `QueuifyEngine.start(queue)` (the `registerQueue` entry point). In
source order: throw `'Queue db is required'` when the queue carries no
resolvable store handle (`!queue.db`); then `checkExisting(...)` throws
`ALREADY_EXISTS` when the name is taken (`checkExisting` is a helper
outside the provided sources; per the spec it fails iff the value
exists); otherwise insert a fresh Queue Runtime State (empty worker
registry, empty idle cursor, stalled flag unset, store state
`initStore`). On either throw the queue map is returned untouched. -/
def engineStart (e : Engine) (queueName : String) (hasDb : Bool)
    (initStore : QueueStore) : Option DBError × Engine :=
  if !hasDb then (some .missingDb, e)
  else if (lookupQueue e.queues queueName).isSome then
    (some (.alreadyExists queueName), e)
  else
    (none, ⟨e.queues ++ [(queueName, ⟨initStore, [], "", false⟩)]⟩)

/-- The local-execution arm of `QueuifyEngine.onJobsProcess` for one
drained job: `workerFunction(job).then(onComplete).catch(err =>
onFailed(job.id, err.message))`, where `onComplete` is
`completeJob(queueName, jobId)` and `onFailed` is `failJob(queueName,
jobId, errorMessage)`. The routine's outcome is `Except String Unit`, the
`String` being the thrown error's `message`. The store keys are built by
template-literal interpolation of `job.id`, which renders an absent id as
the string `"undefined"`. -/
def processJobLocal (routine : QJob → Except String Unit) (s : QueueStore)
    (j : QJob) : QueueStore :=
  match routine j with
  | .ok _ => completeJob s (j.id.getD "undefined")
  | .error msg => failJob s (j.id.getD "undefined") msg

/-- Iterated fetching: `n` successive `getJobs` calls at the default limit
(exactly how `onJobsRequest` consumes a list), concatenating the returned
jobs in fetch order. -/
def fetchLoop (dec : Option String → Option String) (s : QueueStore)
    (from_ : Status) : Nat → List QJob × QueueStore
  | 0 => ([], s)
  | n + 1 =>
      ((getJobs dec s from_).1 ++ (fetchLoop dec (getJobs dec s from_).2 from_ n).1,
        (fetchLoop dec (getJobs dec s from_).2 from_ n).2)

/-! ## The worker dispatch protocol (`onJobsProcess` / `onFinish`)

`onJobsProcess` manipulates one worker's `{jobs, status}` plus a countdown
of outstanding dispatched jobs (`remainingJobs`, decremented by
`onFinish`). The protocol steps on that state are made explicit as a
transition relation labelled with the jobs a step hands to execution. -/

/-- One worker's dispatch-protocol state: its local batch, its status, and
the countdown of dispatched-but-unfinished jobs. -/
structure WorkerPState where
  jobs : List QJob
  status : WorkerStatus
  remaining : Nat
deriving DecidableEq, Repr

/-- The steps of the dispatch protocol, labelled with the list of jobs the
step dispatches to execution (in dispatch order):

* `emptyBatch` — `onJobsProcess` with an empty batch: mark the worker
  idle, dispatch nothing.
* `busyDrain` — `onJobsProcess` with a non-empty batch: mark the worker
  busy, set up the countdown over the batch, and drain the whole batch via
  `workerData.jobs.pop()` (tail first, i.e. most-recently-fetched first),
  dispatching every drained job.
* `finishMid` — `onFinish` with other jobs still outstanding: decrement
  the countdown, change nothing else.
* `finishLast` — `onFinish` for the last outstanding job: the countdown
  reaches zero and the worker is marked idle (emitting a fresh
  pool-request). -/
inductive ProtoStep : WorkerPState → List QJob → WorkerPState → Prop where
  | emptyBatch (s : WorkerPState) :
      s.jobs = [] →
      ProtoStep s [] { s with status := .idle }
  | busyDrain (s : WorkerPState) :
      s.jobs ≠ [] →
      ProtoStep s s.jobs.reverse
        { jobs := [], status := .busy, remaining := s.remaining + s.jobs.length }
  | finishMid (s : WorkerPState) :
      1 < s.remaining →
      ProtoStep s [] { s with remaining := s.remaining - 1 }
  | finishLast (s : WorkerPState) :
      s.remaining = 1 →
      ProtoStep s [] { s with status := .idle, remaining := 0 }

/-- The idle/busy invariant of one worker's protocol state: an idle worker
has an empty batch, and while any dispatched job is outstanding the batch
has been fully drained. -/
def WorkerInv (s : WorkerPState) : Prop :=
  (s.status = .idle → s.jobs = []) ∧ (0 < s.remaining → s.jobs = [])

/-- The status field stored for a job id: `some st` iff the record exists
and carries a status. -/
def statusOf (rs : Records) (id : String) : Option Status :=
  (lookupRecord rs id).bind JobRecord.status

/-- The failure-reason field stored for a job id. -/
def reasonOf (rs : Records) (id : String) : Option String :=
  (lookupRecord rs id).bind JobRecord.failedReason

/-- The job-id field stored for a job id's record. -/
def jobIdOf (rs : Records) (id : String) : Option String :=
  (lookupRecord rs id).bind JobRecord.jobId

/-- How many record keys equal `id` (Redis keyspace: at most one). -/
def recordCount (rs : Records) (id : String) : Nat :=
  (rs.map Prod.fst).count id

/-- An entirely empty queue store (fresh Redis keyspace). -/
def s0 : QueueStore := ⟨[], [], [], [], [], []⟩

/-! ## Lemmas on the record keyspace -/

theorem lookupRecord_hsetJob_self (rs : Records) (id : String)
    (f : JobRecord → JobRecord) :
    lookupRecord (hsetJob rs id f) id
      = some (f ((lookupRecord rs id).getD emptyRecord)) := by
  induction rs with
  | nil => simp [hsetJob, lookupRecord]
  | cons p t ih =>
      obtain ⟨k, r⟩ := p
      by_cases hk : k = id
      · subst hk; simp [hsetJob, lookupRecord]
      · simp [hsetJob, lookupRecord, hk, ih]

theorem lookupRecord_hsetJob_ne (rs : Records) (id j : String)
    (f : JobRecord → JobRecord) (hj : j ≠ id) :
    lookupRecord (hsetJob rs id f) j = lookupRecord rs j := by
  induction rs with
  | nil => simp [hsetJob, lookupRecord, Ne.symm hj]
  | cons p t ih =>
      obtain ⟨k, r⟩ := p
      by_cases hk : k = id
      · subst hk; simp [hsetJob, lookupRecord, Ne.symm hj]
      · simp [hsetJob, lookupRecord, hk, ih]

theorem recordCount_eq_zero (rs : Records) (id : String)
    (h : lookupRecord rs id = none) : recordCount rs id = 0 := by
  induction rs with
  | nil => simp [recordCount]
  | cons p t ih =>
      obtain ⟨k, r⟩ := p
      by_cases hk : k = id
      · subst hk; simp [lookupRecord] at h
      · simp only [lookupRecord, if_neg hk] at h
        have h0 := ih h
        simp only [recordCount, List.map_cons, List.count_cons, beq_iff_eq] at h0 ⊢
        simp [h0, Ne.symm hk, hk]

theorem recordCount_hsetJob_of_none (rs : Records) (id : String)
    (f : JobRecord → JobRecord) (h : lookupRecord rs id = none) :
    recordCount (hsetJob rs id f) id = 1 := by
  induction rs with
  | nil => simp [hsetJob, recordCount]
  | cons p t ih =>
      obtain ⟨k, r⟩ := p
      by_cases hk : k = id
      · subst hk; simp [lookupRecord] at h
      · simp only [lookupRecord, if_neg hk] at h
        have h0 := ih h
        simp only [hsetJob, if_neg hk, recordCount, List.map_cons, List.count_cons,
          beq_iff_eq] at h0 ⊢
        simp [h0, Ne.symm hk]

/-- **C1.** Enqueuing the same id twice: the first `addJob` succeeds and
leaves exactly one record for the id (status PENDING, the original data,
no failure reason) and exactly one entry for it on the PENDING list; the
second `addJob` — the Lua script's `exists` check firing before any
write — reports `JobAlreadyExists` and returns the store unchanged. -/
theorem addJob_twice_unique (s : QueueStore) (id d d' : String)
    (h1 : lookupRecord s.records id = none) (h2 : id ∉ s.pending) :
    (addJob s id d).1 = none
    ∧ lookupRecord (addJob s id d).2.records id
        = some ⟨some id, some d, some Status.pending, none⟩
    ∧ recordCount (addJob s id d).2.records id = 1
    ∧ (addJob s id d).2.pending.count id = 1
    ∧ statusOf (addJob s id d).2.records id = some Status.pending
    ∧ addJob (addJob s id d).2 id d'
        = (some (DBError.jobAlreadyExists id), (addJob s id d).2) := by
  have hlook :
      lookupRecord (addJob s id d).2.records id
        = some ⟨some id, some d, some Status.pending, none⟩ := by
    simp [addJob, h1, lookupRecord_hsetJob_self, emptyRecord]
  refine ⟨by simp [addJob, h1], hlook, ?_, ?_, ?_, ?_⟩
  · simp [addJob, h1]
    exact recordCount_hsetJob_of_none _ _ _ h1
  · simp [addJob, h1, List.count_cons_self, List.count_eq_zero.mpr h2]
  · simp [statusOf, hlook]
  · simp [addJob, h1, lookupRecord_hsetJob_self]

/-- Witness for C1 at a concrete input: a fresh store, id `"a"`. -/
theorem addJob_twice_unique_witness :
    (addJob s0 "a" "x").1 = none
    ∧ lookupRecord (addJob s0 "a" "x").2.records "a"
        = some ⟨some "a", some "x", some Status.pending, none⟩
    ∧ recordCount (addJob s0 "a" "x").2.records "a" = 1
    ∧ (addJob s0 "a" "x").2.pending.count "a" = 1
    ∧ statusOf (addJob s0 "a" "x").2.records "a" = some Status.pending
    ∧ addJob (addJob s0 "a" "x").2 "a" "y"
        = (some (DBError.jobAlreadyExists "a"), (addJob s0 "a" "x").2) :=
  addJob_twice_unique s0 "a" "x" "y" (by decide) (by decide)

/-- **C9.** `completeJob` and `failJob` are total — they apply to any queue
state and any id, present or not. `completeJob` writes status COMPLETED
(the `hset` creates the record when absent, so the stored status is
COMPLETED afterwards in every case), removes the first occurrence of the
id from the RUNNING list (`lrem … 1`: at most one), and unconditionally
`lpush`es the id onto COMPLETED; `failJob` does the same towards FAILED,
also writing the failure reason. Hence two `completeJob` calls for one id
leave the id on the COMPLETED list twice. -/
theorem completeJob_failJob_total (s : QueueStore) (id reason : String) :
    statusOf (completeJob s id).records id = some Status.completed
    ∧ (completeJob s id).running = s.running.erase id
    ∧ (completeJob s id).completed = id :: s.completed
    ∧ (completeJob s id).pending = s.pending
    ∧ (completeJob s id).stalled = s.stalled
    ∧ (completeJob s id).failed = s.failed
    ∧ statusOf (failJob s id reason).records id = some Status.failed
    ∧ reasonOf (failJob s id reason).records id = some reason
    ∧ (failJob s id reason).running = s.running.erase id
    ∧ (failJob s id reason).failed = id :: s.failed
    ∧ (failJob s id reason).pending = s.pending
    ∧ (failJob s id reason).stalled = s.stalled
    ∧ (failJob s id reason).completed = s.completed
    ∧ (completeJob (completeJob s id) id).completed.count id
        = s.completed.count id + 2 := by
  refine ⟨?_, rfl, rfl, rfl, rfl, rfl, ?_, ?_, rfl, rfl, rfl, rfl, rfl, ?_⟩
  · simp [completeJob, statusOf, hsetStatus, lookupRecord_hsetJob_self]
  · simp [failJob, statusOf, lookupRecord_hsetJob_self]
  · simp [failJob, reasonOf, lookupRecord_hsetJob_self]
  · simp [completeJob, List.count_cons_self]

/-- **C7.** A local-execution worker routine that fails with message `msg`
drives the job through `failJob`: the job record ends with status FAILED
and failure reason `msg`, the id leaves the RUNNING list and is pushed
onto the FAILED list. -/
theorem localFailure_failJob (routine : QJob → Except String Unit)
    (s : QueueStore) (j : QJob) (id msg : String)
    (hid : j.id = some id) (herr : routine j = .error msg) :
    processJobLocal routine s j = failJob s id msg
    ∧ statusOf (processJobLocal routine s j).records id = some Status.failed
    ∧ reasonOf (processJobLocal routine s j).records id = some msg
    ∧ (processJobLocal routine s j).running = s.running.erase id
    ∧ (processJobLocal routine s j).failed = id :: s.failed := by
  have h1 : processJobLocal routine s j = failJob s id msg := by
    simp [processJobLocal, herr, hid]
  refine ⟨h1, ?_, ?_, ?_, ?_⟩ <;> rw [h1]
  · simp [failJob, statusOf, lookupRecord_hsetJob_self]
  · simp [failJob, reasonOf, lookupRecord_hsetJob_self]
  · rfl
  · rfl

/-- Witness for C7: the routine throws `"boom"` on job `"a"`; the job ends
FAILED with reason `"boom"`. -/
theorem localFailure_failJob_witness :
    processJobLocal (fun _ => Except.error "boom") s0 ⟨some "a", some "x"⟩
        = failJob s0 "a" "boom"
    ∧ statusOf (processJobLocal (fun _ => Except.error "boom") s0
        ⟨some "a", some "x"⟩).records "a" = some Status.failed
    ∧ reasonOf (processJobLocal (fun _ => Except.error "boom") s0
        ⟨some "a", some "x"⟩).records "a" = some "boom"
    ∧ (processJobLocal (fun _ => Except.error "boom") s0
        ⟨some "a", some "x"⟩).running = s0.running.erase "a"
    ∧ (processJobLocal (fun _ => Except.error "boom") s0
        ⟨some "a", some "x"⟩).failed = "a" :: s0.failed :=
  localFailure_failJob (fun _ => Except.error "boom") s0 ⟨some "a", some "x"⟩
    "a" "boom" rfl rfl

/-! ## Lemmas on status lists and the pop loop -/

theorem getList_setList_self (s : QueueStore) (st : Status) (l : List String) :
    (s.setList st l).getList st = l := by
  cases st <;> rfl

theorem getList_setList_ne (s : QueueStore) (st st' : Status) (l : List String)
    (h : st' ≠ st) : (s.setList st l).getList st' = s.getList st' := by
  cases st <;> cases st' <;>
    simp_all [QueueStore.getList, QueueStore.setList]

theorem records_setList (s : QueueStore) (st : Status) (l : List String) :
    (s.setList st l).records = s.records := by
  cases st <;> rfl

/-- Full characterization of the `lmove` loop of `getJobs` for a source
list other than RUNNING, on the loop's regular path — none of the first
`n` source ids is the falsy empty string: it pops the first `n` ids off
the source head, appends them in pop order to the RUNNING tail, and
touches neither the records nor any other list. -/
theorem popIds_spec (from_ : Status) (hfr : from_ ≠ .running) :
    ∀ (n : Nat) (s : QueueStore), "" ∉ (s.getList from_).take n →
      (popIds s from_ n).1 = (s.getList from_).take n
      ∧ (popIds s from_ n).2.getList from_ = (s.getList from_).drop n
      ∧ (popIds s from_ n).2.running = s.running ++ (s.getList from_).take n
      ∧ (popIds s from_ n).2.records = s.records
      ∧ ∀ st, st ≠ from_ → st ≠ .running →
          (popIds s from_ n).2.getList st = s.getList st := by
  intro n
  induction n with
  | zero => intro s _; simp [popIds]
  | succ n ih =>
      intro s h0
      match hl : s.getList from_ with
      | [] =>
          simp only [popIds, lmoveLR, hl]
          simp [hl]
      | x :: xs =>
          rw [hl] at h0
          simp only [List.take_succ_cons, List.mem_cons, not_or] at h0
          have hx : ¬x = "" := fun hc => h0.1 hc.symm
          have hrun : QueueStore.getList _ .running = s.running :=
            getList_setList_ne s from_ .running xs (Ne.symm hfr)
          simp only [popIds, lmoveLR, hl, if_neg hx]
          set s1 : QueueStore :=
            (s.setList from_ xs).setList .running
              ((s.setList from_ xs).getList .running ++ [x]) with hs1
          have h1from : s1.getList from_ = xs := by
            rw [hs1, getList_setList_ne _ _ _ _ hfr, getList_setList_self]
          have h1run : s1.running = s.running ++ [x] := by
            show s1.getList .running = s.running ++ [x]
            rw [hs1, getList_setList_self,
              getList_setList_ne s from_ .running xs (Ne.symm hfr)]
            rfl
          have h1rec : s1.records = s.records := by
            rw [hs1, records_setList, records_setList]
          have h1other : ∀ st, st ≠ from_ → st ≠ .running →
              s1.getList st = s.getList st := by
            intro st hst1 hst2
            rw [hs1, getList_setList_ne _ _ _ _ hst2, getList_setList_ne _ _ _ _ hst1]
          obtain ⟨i1, i2, i3, i4, i5⟩ := ih s1 (by rw [h1from]; exact h0.2)
          refine ⟨?_, ?_, ?_, ?_, ?_⟩
          · simp [i1, h1from, hl]
          · simp [i2, h1from, hl]
          · rw [i3, h1run, h1from]
            simp
          · rw [i4, h1rec]
          · intro st hst1 hst2
            rw [i5 st hst1 hst2, h1other st hst1 hst2]

/-- Regardless of falsy ids, the `lmove` loop collects at most `n` ids. -/
theorem popIds_length_le (from_ : Status) :
    ∀ (n : Nat) (s : QueueStore), (popIds s from_ n).1.length ≤ n := by
  intro n
  induction n with
  | zero => intro s; simp [popIds]
  | succ n ih =>
      intro s
      match hl : s.getList from_ with
      | [] => simp only [popIds, lmoveLR, hl]; simp
      | x :: xs =>
          simp only [popIds, lmoveLR, hl]
          by_cases hx : x = ""
          · simp [hx]
          · simp only [if_neg hx, List.length_cons]
            exact Nat.succ_le_succ (ih _)

/-- Regardless of falsy ids, the `lmove` loop runs at most `n` moves, so
the RUNNING list grows by at most `n`. -/
theorem popIds_running_le (from_ : Status) (hfr : from_ ≠ .running) :
    ∀ (n : Nat) (s : QueueStore),
      (popIds s from_ n).2.running.length ≤ s.running.length + n := by
  intro n
  induction n with
  | zero => intro s; simp [popIds]
  | succ n ih =>
      intro s
      match hl : s.getList from_ with
      | [] => simp only [popIds, lmoveLR, hl]; simp
      | x :: xs =>
          have hrun :
              ((s.setList from_ xs).setList .running
                ((s.setList from_ xs).getList .running ++ [x])).running
                = s.running ++ [x] := by
            show QueueStore.getList _ .running = s.running ++ [x]
            rw [getList_setList_self,
              getList_setList_ne s from_ .running xs (Ne.symm hfr)]
            rfl
          simp only [popIds, lmoveLR, hl]
          by_cases hx : x = ""
          · subst hx
            rw [if_pos rfl]
            show ((s.setList from_ xs).setList Status.running
                ((s.setList from_ xs).getList Status.running ++ [""])).running.length
              ≤ s.running.length + (n + 1)
            rw [hrun]
            simp
          · simp only [if_neg hx]
            calc (popIds _ from_ n).2.running.length
                ≤ _ + n := ih _
              _ ≤ s.running.length + (n + 1) := by rw [hrun]; simp; omega

/-- Regardless of falsy ids, the `lmove` loop touches neither the records
nor any list other than the source and RUNNING. -/
theorem popIds_frame (from_ : Status) :
    ∀ (n : Nat) (s : QueueStore),
      (popIds s from_ n).2.records = s.records
      ∧ ∀ st, st ≠ from_ → st ≠ .running →
          (popIds s from_ n).2.getList st = s.getList st := by
  intro n
  induction n with
  | zero => intro s; simp [popIds]
  | succ n ih =>
      intro s
      match hl : s.getList from_ with
      | [] => simp only [popIds, lmoveLR, hl]; simp
      | x :: xs =>
          have h1rec :
              ((s.setList from_ xs).setList .running
                ((s.setList from_ xs).getList .running ++ [x])).records
                = s.records := by
            rw [records_setList, records_setList]
          have h1other : ∀ st, st ≠ from_ → st ≠ .running →
              ((s.setList from_ xs).setList .running
                ((s.setList from_ xs).getList .running ++ [x])).getList st
                = s.getList st := by
            intro st hst1 hst2
            rw [getList_setList_ne _ _ _ _ hst2, getList_setList_ne _ _ _ _ hst1]
          simp only [popIds, lmoveLR, hl]
          by_cases hx : x = ""
          · subst hx
            rw [if_pos rfl]
            exact ⟨h1rec, h1other⟩
          · simp only [if_neg hx]
            obtain ⟨j1, j2⟩ := ih ((s.setList from_ xs).setList .running
              ((s.setList from_ xs).getList .running ++ [x]))
            exact ⟨j1.trans h1rec, fun st hst1 hst2 =>
              (j2 st hst1 hst2).trans (h1other st hst1 hst2)⟩

/-- When the source list is empty, the `lmove` loop does nothing. -/
theorem popIds_nil (from_ : Status) (n : Nat) (s : QueueStore)
    (h : s.getList from_ = []) : popIds s from_ n = ([], s) := by
  cases n with
  | zero => rfl
  | succ n => simp only [popIds, lmoveLR, h]

theorem getList_withRecords (s : QueueStore) (rs : Records) (st : Status) :
    QueueStore.getList { s with records := rs } st = s.getList st := by
  cases st <;> rfl

theorem lookup_foldl_hsetStatus_not_mem (l : List String) (rs : Records)
    (v : Status) (i : String) (h : i ∉ l) :
    lookupRecord (l.foldl (fun rs j => hsetStatus rs j v) rs) i
      = lookupRecord rs i := by
  induction l generalizing rs with
  | nil => rfl
  | cons x t ih =>
      simp only [List.mem_cons, not_or] at h
      rw [List.foldl_cons, ih _ h.2, hsetStatus,
        lookupRecord_hsetJob_ne _ _ _ _ h.1]

theorem statusOf_foldl_hsetStatus_mem (l : List String) (rs : Records)
    (v : Status) (i : String) (h : i ∈ l) :
    statusOf (l.foldl (fun rs j => hsetStatus rs j v) rs) i = some v := by
  induction l generalizing rs with
  | nil => cases h
  | cons x t ih =>
      by_cases ht : i ∈ t
      · rw [List.foldl_cons]; exact ih _ ht
      · have hx : i = x := by
          rcases List.mem_cons.mp h with h' | h'
          · exact h'
          · exact absurd h' ht
        subst hx
        rw [List.foldl_cons, statusOf,
          lookup_foldl_hsetStatus_not_mem t _ v i ht, hsetStatus,
          lookupRecord_hsetJob_self]
        simp

theorem jobIdOf_hsetStatus (rs : Records) (k : String) (v : Status)
    (i : String) : jobIdOf (hsetStatus rs k v) i = jobIdOf rs i := by
  by_cases hk : i = k
  · subst hk
    rw [jobIdOf, hsetStatus, lookupRecord_hsetJob_self, jobIdOf]
    cases hrs : lookupRecord rs i <;> simp [emptyRecord]
  · rw [jobIdOf, hsetStatus, lookupRecord_hsetJob_ne _ _ _ _ hk, jobIdOf]

theorem jobIdOf_foldl_hsetStatus (l : List String) (rs : Records) (v : Status)
    (i : String) :
    jobIdOf (l.foldl (fun rs j => hsetStatus rs j v) rs) i = jobIdOf rs i := by
  induction l generalizing rs with
  | nil => rfl
  | cons x t ih => rw [List.foldl_cons, ih, jobIdOf_hsetStatus]

/-- **C4** (amended). `getJobs` from a source list other than RUNNING
(the engine fetches only from STALLED and PENDING), provided none of the
first `n` source ids is the empty string — the JS-falsy id on which the
pop loop breaks after its `lmove`: it pops the first `n` ids off the
source list,
appends them in that order to the RUNNING list, sets each popped job's
status field to RUNNING, leaves every other record and list untouched,
and returns exactly the popped jobs as (stored job-id field, decompressed
stored data); at most `n` jobs come back, and an empty source yields
`([], s)` — no error, no state change. -/
theorem getJobs_spec (dec : Option String → Option String) (s : QueueStore)
    (from_ : Status) (n : Nat) (hfr : from_ ≠ .running)
    (h0 : "" ∉ (s.getList from_).take n) :
    (getJobs dec s from_ n).1
        = ((s.getList from_).take n).map (fun i =>
            QJob.mk ((lookupRecord s.records i).getD emptyRecord).jobId
              (dec ((lookupRecord s.records i).getD emptyRecord).data))
    ∧ (getJobs dec s from_ n).1.length ≤ n
    ∧ (getJobs dec s from_ n).2.getList from_ = (s.getList from_).drop n
    ∧ (getJobs dec s from_ n).2.running = s.running ++ (s.getList from_).take n
    ∧ (∀ i ∈ (s.getList from_).take n,
        statusOf (getJobs dec s from_ n).2.records i = some Status.running)
    ∧ (∀ j, j ∉ (s.getList from_).take n →
        lookupRecord (getJobs dec s from_ n).2.records j = lookupRecord s.records j)
    ∧ (∀ st, st ≠ from_ → st ≠ .running →
        (getJobs dec s from_ n).2.getList st = s.getList st)
    ∧ (s.getList from_ = [] → getJobs dec s from_ n = ([], s))
    ∧ (∀ i, jobIdOf (getJobs dec s from_ n).2.records i = jobIdOf s.records i) := by
  obtain ⟨p1, p2, p3, p4, p5⟩ := popIds_spec from_ hfr n s h0
  have hempty : s.getList from_ = [] → getJobs dec s from_ n = ([], s) := by
    intro hl
    rw [getJobs, popIds_nil from_ n s hl]
    simp
  by_cases hids : (s.getList from_).take n = []
  · have hp : popIds s from_ n = ([], s) := by
      rcases List.take_eq_nil_iff.mp hids with hn | hl
      · subst hn; rfl
      · exact popIds_nil from_ n s hl
    have hg : getJobs dec s from_ n = ([], s) := by
      rw [getJobs, hp]; simp
    rcases List.take_eq_nil_iff.mp hids with hn | hl
    · subst hn
      simp [hg, hids]
    · simp [hg, hids, hl]
  · have hne : ¬(popIds s from_ n).1.isEmpty := by
      rw [p1, List.isEmpty_iff]; exact hids
    have hg : getJobs dec s from_ n =
        ((popIds s from_ n).1.map (fun i =>
            QJob.mk ((lookupRecord (popIds s from_ n).2.records i).getD emptyRecord).jobId
              (dec ((lookupRecord (popIds s from_ n).2.records i).getD emptyRecord).data)),
          { (popIds s from_ n).2 with
              records := (popIds s from_ n).1.foldl
                (fun rs i => hsetStatus rs i .running) (popIds s from_ n).2.records }) := by
      rw [getJobs]
      simp [hne]
    rw [hg]
    refine ⟨?_, ?_, ?_, ?_, ?_, ?_, ?_, ?_, ?_⟩
    · rw [p1, p4]
    · rw [p1]
      simp [List.length_take]
    · rw [getList_withRecords, p2]
    · show (popIds s from_ n).2.running = _
      rw [p3]
    · intro i hi
      rw [p1, p4]
      exact statusOf_foldl_hsetStatus_mem _ _ _ _ hi
    · intro j hj
      rw [p1, p4]
      exact lookup_foldl_hsetStatus_not_mem _ _ _ _ hj
    · intro st h1 h2
      rw [getList_withRecords]
      exact p5 st h1 h2
    · intro hl
      rw [← hg]
      exact hempty hl
    · intro i
      show jobIdOf _ i = _
      rw [p4, jobIdOf_foldl_hsetStatus]

/-- Witness for C4: a store with jobs `"a"`, `"b"` pending; fetching two
from PENDING claims both. -/
theorem getJobs_spec_witness :
    (getJobs id (addJob (addJob s0 "a" "x").2 "b" "y").2 Status.pending 2).1
        = [⟨some "b", some "y"⟩, ⟨some "a", some "x"⟩]
    ∧ (getJobs id (addJob (addJob s0 "a" "x").2 "b" "y").2 Status.pending 2).2.running
        = ["b", "a"]
    ∧ statusOf (getJobs id (addJob (addJob s0 "a" "x").2 "b" "y").2
        Status.pending 2).2.records "a" = some Status.running := by
  have h := getJobs_spec id (addJob (addJob s0 "a" "x").2 "b" "y").2
    Status.pending 2 (by decide) (by decide)
  refine ⟨?_, ?_, ?_⟩
  · rw [h.1]; rfl
  · rw [h.2.2.2.1]; rfl
  · exact h.2.2.2.2.1 "a" (by decide)

/-- The empty-string id is reachable: `addJob("", data)` succeeds and
leaves the falsy id PENDING. This is the resulting store. -/
def pFalsy : QueueStore := (addJob s0 "" "x").2

/-- **C4** (counterexample to the claim as stated). Fetching from a
PENDING list headed by the reachable empty-string id pops the id off
PENDING onto RUNNING, yet returns no record and leaves the job's status
PENDING: `if (!jobId) break` fires on the JS-falsy id after its `lmove`
already ran, so the popped job is neither returned nor status-set. -/
theorem getJobs_falsy_break :
    (addJob s0 "" "x").1 = none
    ∧ pFalsy.pending = [""]
    ∧ (getJobs id pFalsy .pending 1).1 = []
    ∧ (getJobs id pFalsy .pending 1).2.pending = []
    ∧ (getJobs id pFalsy .pending 1).2.running = [""]
    ∧ statusOf (getJobs id pFalsy .pending 1).2.records ""
        = some Status.pending := by
  exact ⟨by decide, by decide, by decide, by decide, by decide, by decide⟩

/-! ## Lemmas on `moveJobsBetweenLists` -/

theorem moveStep_spec (from_ to_ : Status) (h : from_ ≠ to_) (s : QueueStore)
    (x : String) (xs : List String) (hl : s.getList from_ = x :: xs)
    (j : String) :
    (moveStep from_ to_ s j).getList from_ = xs
    ∧ (moveStep from_ to_ s j).getList to_ = s.getList to_ ++ [x]
    ∧ (moveStep from_ to_ s j).records = hsetStatus s.records j to_
    ∧ ∀ st, st ≠ from_ → st ≠ to_ →
        (moveStep from_ to_ s j).getList st = s.getList st := by
  have hms : moveStep from_ to_ s j =
      { (s.setList from_ xs).setList to_
          ((s.setList from_ xs).getList to_ ++ [x]) with
        records := hsetStatus
          ((s.setList from_ xs).setList to_
            ((s.setList from_ xs).getList to_ ++ [x])).records j to_ } := by
    rw [moveStep, lmoveLR, hl]
  rw [hms]
  refine ⟨?_, ?_, ?_, ?_⟩
  · rw [getList_withRecords, getList_setList_ne _ _ _ _ h, getList_setList_self]
  · rw [getList_withRecords, getList_setList_self,
      getList_setList_ne _ _ _ _ (Ne.symm h)]
  · rw [records_setList, records_setList]
  · intro st h1 h2
    rw [getList_withRecords, getList_setList_ne _ _ _ _ h2,
      getList_setList_ne _ _ _ _ h1]

theorem foldl_moveStep_spec (from_ to_ : Status) (h : from_ ≠ to_) :
    ∀ (l : List String) (s : QueueStore), s.getList from_ = l →
      (l.foldl (moveStep from_ to_) s).getList from_ = []
      ∧ (l.foldl (moveStep from_ to_) s).getList to_ = s.getList to_ ++ l
      ∧ (l.foldl (moveStep from_ to_) s).records
          = l.foldl (fun rs i => hsetStatus rs i to_) s.records
      ∧ ∀ st, st ≠ from_ → st ≠ to_ →
          (l.foldl (moveStep from_ to_) s).getList st = s.getList st := by
  intro l
  induction l with
  | nil =>
      intro s hl
      exact ⟨hl, by simp, rfl, fun _ _ _ => rfl⟩
  | cons x t ih =>
      intro s hl
      obtain ⟨m1, m2, m3, m4⟩ := moveStep_spec from_ to_ h s x t hl x
      obtain ⟨i1, i2, i3, i4⟩ := ih (moveStep from_ to_ s x) m1
      rw [List.foldl_cons]
      refine ⟨i1, ?_, ?_, ?_⟩
      · rw [i2, m2]
        simp
      · rw [i3, m3, List.foldl_cons]
      · intro st h1 h2
        rw [i4 st h1 h2, m4 st h1 h2]

/-- Fetching one job at a time (the engine's default-limit fetches), as
many times as the source list is long, returns jobs whose id fields are
exactly the source list's ids in head-first order, and drains the source;
requires that no listed id is the falsy empty string and that each listed
id's record stores that id in its `JOB_ID` field (true for every record
written by `addJob`). -/
theorem fetchLoop_order (dec : Option String → Option String) (src : Status)
    (hsrc : src ≠ .running) :
    ∀ (l : List String) (s : QueueStore), s.getList src = l → "" ∉ l →
      (∀ i ∈ l, jobIdOf s.records i = some i) →
      (fetchLoop dec s src l.length).1.map QJob.id = l.map some
      ∧ (fetchLoop dec s src l.length).2.getList src = [] := by
  intro l
  induction l with
  | nil =>
      intro s hl _ _
      exact ⟨rfl, hl⟩
  | cons x t ih =>
      intro s hl hnf hwf
      have hnf1 : ¬"" = x ∧ "" ∉ t := by
        simpa [List.mem_cons, not_or] using hnf
      have h0 : "" ∉ (s.getList src).take 1 := by
        rw [hl]
        simpa using hnf1.1
      obtain ⟨g1, _, g3, _, _, _, _, _, g9⟩ := getJobs_spec dec s src 1 hsrc h0
      have hx : jobIdOf s.records x = some x := hwf x (List.mem_cons_self x t)
      have hxrec : ((lookupRecord s.records x).getD emptyRecord).jobId = some x := by
        rw [jobIdOf] at hx
        cases hrs : lookupRecord s.records x with
        | none => rw [hrs] at hx; simp at hx
        | some r => rw [hrs] at hx; simpa using hx
      have htake : (s.getList src).take 1 = [x] := by rw [hl]; rfl
      have hdrop : (s.getList src).drop 1 = t := by rw [hl]; rfl
      obtain ⟨j1, j2⟩ := ih (getJobs dec s src).2 (by rw [g3, hdrop]) hnf1.2 (by
        intro i hi
        rw [g9 i]
        exact hwf i (List.mem_cons_of_mem x hi))
      constructor
      · show ((getJobs dec s src).1 ++ (fetchLoop dec (getJobs dec s src).2 src t.length).1).map QJob.id = _
        rw [List.map_append, j1, g1, htake]
        simp [hxrec]
      · exact j2

/-- **C2** (amended). `moveJobsBetweenLists` between two distinct lists
drains every id of the `from` list (in head-first `lrange` order) onto
the tail of the `to` list, sets each drained job's status field to `to`,
touches no other record or list, and returns the drained ids. Replaying
the resulting `to` list head-first is `old-to ++ old-from`, so with an
empty destination it reproduces the `from` list's head-first processing
order exactly — and then, provided no recovered id is the falsy empty
string (the fetch would move such an id but drop it), `N` default-limit
fetches (`N` = number of recovered jobs) return exactly the recovered
jobs in that order, draining the destination. -/
theorem moveAll_spec (s : QueueStore) (from_ to_ : Status) (h : from_ ≠ to_) :
    (moveJobsBetweenLists s from_ to_).1 = s.getList from_
    ∧ (moveJobsBetweenLists s from_ to_).2.getList from_ = []
    ∧ (moveJobsBetweenLists s from_ to_).2.getList to_
        = s.getList to_ ++ s.getList from_
    ∧ (∀ i ∈ s.getList from_,
        statusOf (moveJobsBetweenLists s from_ to_).2.records i = some to_)
    ∧ (∀ j, j ∉ s.getList from_ →
        lookupRecord (moveJobsBetweenLists s from_ to_).2.records j
          = lookupRecord s.records j)
    ∧ (∀ st, st ≠ from_ → st ≠ to_ →
        (moveJobsBetweenLists s from_ to_).2.getList st = s.getList st)
    ∧ (s.getList to_ = [] → to_ ≠ .running → "" ∉ s.getList from_ →
        (∀ i ∈ s.getList from_, jobIdOf s.records i = some i) →
        ∀ dec,
          (fetchLoop dec (moveJobsBetweenLists s from_ to_).2 to_
              (s.getList from_).length).1.map QJob.id
            = (s.getList from_).map some) := by
  obtain ⟨f1, f2, f3, f4⟩ := foldl_moveStep_spec from_ to_ h (s.getList from_) s rfl
  have hm : moveJobsBetweenLists s from_ to_
      = (s.getList from_, (s.getList from_).foldl (moveStep from_ to_) s) := rfl
  rw [hm]
  refine ⟨rfl, f1, f2, ?_, ?_, f4, ?_⟩
  · intro i hi
    rw [f3]
    exact statusOf_foldl_hsetStatus_mem _ _ _ _ hi
  · intro j hj
    rw [f3]
    exact lookup_foldl_hsetStatus_not_mem _ _ _ _ hj
  · intro hto hrun hnf hwf dec
    have hl' : ((s.getList from_).foldl (moveStep from_ to_) s).getList to_
        = s.getList from_ := by
      rw [f2, hto]; simp
    have hwf' : ∀ i ∈ s.getList from_,
        jobIdOf ((s.getList from_).foldl (moveStep from_ to_) s).records i
          = some i := by
      intro i hi
      rw [f3, jobIdOf_foldl_hsetStatus]
      exact hwf i hi
    exact (fetchLoop_order dec to_ hrun (s.getList from_) _ hl' hnf hwf').1

/-- The restart scenario's store: jobs `"a"`, `"b"` left in RUNNING by a
crashed process (records intact), STALLED empty. -/
def sRestart : QueueStore :=
  ⟨[("a", ⟨some "a", some "x", some Status.running, none⟩),
    ("b", ⟨some "b", some "y", some Status.running, none⟩)],
    [], ["a", "b"], [], [], []⟩

/-- Witness for C2: recovering the two crashed jobs moves both to STALLED
in order, and the next two fetches return them in that order. -/
theorem moveAll_spec_witness :
    (moveJobsBetweenLists sRestart .running .stalled).1 = ["a", "b"]
    ∧ (moveJobsBetweenLists sRestart .running .stalled).2.getList .running = []
    ∧ (moveJobsBetweenLists sRestart .running .stalled).2.getList .stalled
        = ["a", "b"]
    ∧ statusOf (moveJobsBetweenLists sRestart .running .stalled).2.records "a"
        = some .stalled
    ∧ (fetchLoop id (moveJobsBetweenLists sRestart .running .stalled).2
          .stalled 2).1.map QJob.id = [some "a", some "b"] := by
  have h := moveAll_spec sRestart .running .stalled (by decide)
  refine ⟨h.1.trans rfl, h.2.1, h.2.2.1.trans rfl, ?_, ?_⟩
  · exact h.2.2.2.1 "a" (by decide)
  · exact h.2.2.2.2.2.2 rfl (by decide) (by decide) (by decide) id

/-- A store whose only job has the empty string as id, left in RUNNING by
a crash; its record stores that id in the `JOB_ID` field, exactly as
`addJob("", data)` — which succeeds — writes it. -/
def sFalsy : QueueStore :=
  ⟨[("", ⟨some "", some "x", some Status.running, none⟩)],
    [], [""], [], [], []⟩

/-- **C2** (counterexample to the claim as stated). One job with the
empty-string id is recovered from RUNNING into STALLED, yet the first
fetch after the move returns no job at all — `if (!jobId) break` fires on
the falsy id after its `lmove` — and the job sits on RUNNING again,
unreturned: the first-N-fetches replay fails. -/
theorem moveAll_replay_falsy :
    (moveJobsBetweenLists sFalsy .running .stalled).1 = [""]
    ∧ (moveJobsBetweenLists sFalsy .running .stalled).2.stalled = [""]
    ∧ (fetchLoop id (moveJobsBetweenLists sFalsy .running .stalled).2
        .stalled 1).1 = []
    ∧ (fetchLoop id (moveJobsBetweenLists sFalsy .running .stalled).2
        .stalled 1).2.running = [""] := by
  exact ⟨rfl, rfl, rfl, rfl⟩

/-! ## Lemmas on `onJobsRequest` -/

theorem getJobs_source_empty (dec : Option String → Option String)
    (s : QueueStore) (from_ : Status) (n : Nat) (h : s.getList from_ = []) :
    getJobs dec s from_ n = ([], s) := by
  rw [getJobs, popIds_nil from_ n s h]
  simp

/-- Whatever ids the source holds (falsy ones included), `getJobs`
returns at most `limit` jobs. -/
theorem getJobs_len_le (dec : Option String → Option String) (s : QueueStore)
    (from_ : Status) (n : Nat) : (getJobs dec s from_ n).1.length ≤ n := by
  rw [getJobs]
  by_cases hp : (popIds s from_ n).1.isEmpty
  · simp [hp]
  · simpa [hp] using popIds_length_le from_ n s

/-- Whatever ids the source holds (falsy ones included), `getJobs` with
limit `n` runs at most `n` `lmove`s, so RUNNING grows by at most `n`. -/
theorem getJobs_running_le (dec : Option String → Option String)
    (s : QueueStore) (from_ : Status) (n : Nat) (hfr : from_ ≠ .running) :
    (getJobs dec s from_ n).2.running.length ≤ s.running.length + n := by
  have h := popIds_running_le from_ hfr n s
  rw [getJobs]
  by_cases hp : (popIds s from_ n).1.isEmpty
  · simpa [hp] using h
  · simpa [hp] using h

/-- Whatever ids the source holds (falsy ones included), `getJobs`
touches no list besides the source and RUNNING. -/
theorem getJobs_frame (dec : Option String → Option String) (s : QueueStore)
    (from_ : Status) (n : Nat) :
    ∀ st, st ≠ from_ → st ≠ .running →
      (getJobs dec s from_ n).2.getList st = s.getList st := by
  intro st h1 h2
  have h := (popIds_frame from_ n s).2 st h1 h2
  rw [getJobs]
  by_cases hp : (popIds s from_ n).1.isEmpty
  · simpa [hp] using h
  · simpa [hp, getList_withRecords] using h

/-- The falsy break observed from `getJobs` at the default limit: with the
source headed by the empty-string id, the id is `lmove`d onto the RUNNING
tail, yet no job is returned, no status is set and no record is read. -/
theorem getJobs_falsy_head (dec : Option String → Option String)
    (s : QueueStore) (from_ : Status) (xs : List String)
    (hfr : from_ ≠ .running) (hs : s.getList from_ = "" :: xs) :
    (getJobs dec s from_ 1).1 = []
    ∧ (getJobs dec s from_ 1).2.getList from_ = xs
    ∧ (getJobs dec s from_ 1).2.running = s.running ++ [""]
    ∧ (getJobs dec s from_ 1).2.records = s.records
    ∧ ∀ st, st ≠ from_ → st ≠ .running →
        (getJobs dec s from_ 1).2.getList st = s.getList st := by
  have hpop : popIds s from_ 1 =
      ([], (s.setList from_ xs).setList .running
        ((s.setList from_ xs).getList .running ++ [""])) := by
    show popIds s from_ (0 + 1) = _
    simp [popIds, lmoveLR, hs]
  have hg : getJobs dec s from_ 1 =
      ([], (s.setList from_ xs).setList .running
        ((s.setList from_ xs).getList .running ++ [""])) := by
    rw [getJobs, hpop]
    simp
  rw [hg]
  refine ⟨rfl, ?_, ?_, ?_, ?_⟩
  · rw [getList_setList_ne _ _ _ _ hfr, getList_setList_self]
  · show QueueStore.getList _ .running = s.running ++ [""]
    rw [getList_setList_self,
      getList_setList_ne s from_ .running xs (Ne.symm hfr)]
    rfl
  · rw [records_setList, records_setList]
  · intro st h1 h2
    rw [getList_setList_ne _ _ _ _ h2, getList_setList_ne _ _ _ _ h1]

theorem lookupWorker_setWorker_self (ws : List (String × WorkerData))
    (w : String) (nw : WorkerData) :
    lookupWorker (setWorker ws w nw) w = some nw := by
  induction ws with
  | nil => simp [setWorker, lookupWorker]
  | cons p t ih =>
      obtain ⟨k, wd⟩ := p
      by_cases hk : k = w
      · subst hk; simp [setWorker, lookupWorker]
      · simp [setWorker, lookupWorker, hk, ih]

/-- `onJobsRequest` when the stalled pass is over — the flag is already
set, or it is unset but the STALLED list is empty (the fetch that sets
it): the store evolves exactly by a default-limit PENDING fetch and the
flag ends up set. -/
theorem onJobsRequest_pendingPath (dec : Option String → Option String)
    (q : QueueMapValue) (w : String) (wd : WorkerData)
    (hw : lookupWorker q.workers w = some wd)
    (hcase : q.isStalledJobsProcessingComplete = true
      ∨ (q.isStalledJobsProcessingComplete = false ∧ q.store.stalled = [])) :
    onJobsRequest dec q w =
      (if (getJobs dec q.store .pending).1.isEmpty then
        ({ q with
            store := (getJobs dec q.store .pending).2
            isStalledJobsProcessingComplete := true }, false)
      else
        ({ q with
            store := (getJobs dec q.store .pending).2
            isStalledJobsProcessingComplete := true
            workers := setWorker q.workers w
              { wd with jobs := wd.jobs ++ (getJobs dec q.store .pending).1 } },
          true)) := by
  rcases hcase with hf | ⟨hf, hs⟩
  · simp only [onJobsRequest, hw]
    simp [hf]
  · have hge : getJobs dec q.store .stalled = ([], q.store) :=
      getJobs_source_empty dec q.store .stalled 1 hs
    simp only [onJobsRequest, hw]
    simp [hf, hge]

/-- `onJobsRequest` while the stalled pass is active and STALLED is
headed by a non-falsy id: the store evolves exactly by a default-limit
STALLED fetch, the fetched job is pushed to the worker, pool-process is
emitted, and the flag stays unset. -/
theorem onJobsRequest_stalledPath (dec : Option String → Option String)
    (q : QueueMapValue) (w : String) (wd : WorkerData)
    (hw : lookupWorker q.workers w = some wd)
    (hf : q.isStalledJobsProcessingComplete = false)
    (x : String) (xs : List String) (hx : x ≠ "")
    (hs : q.store.stalled = x :: xs) :
    onJobsRequest dec q w =
      ({ q with
          store := (getJobs dec q.store .stalled).2
          isStalledJobsProcessingComplete := false
          workers := setWorker q.workers w
            { wd with jobs := wd.jobs ++ (getJobs dec q.store .stalled).1 } },
        true) := by
  have hs' : q.store.getList .stalled = x :: xs := hs
  have h0 : "" ∉ (q.store.getList .stalled).take 1 := by
    rw [hs']
    simpa using fun hc => hx hc.symm
  have hne : (getJobs dec q.store .stalled).1.isEmpty = false := by
    have h1 := (getJobs_spec dec q.store .stalled 1 (by decide) h0).1
    rw [hs'] at h1
    rw [h1]
    rfl
  simp only [onJobsRequest, hw]
  simp [hf, hne]

/-- `onJobsRequest` while the stalled pass is active and STALLED is
headed by the falsy empty-string id: the stalled fetch moves that id to
RUNNING but returns no job, so the completion flag is set and the request
falls through to a default-limit PENDING fetch on the moved store. -/
theorem onJobsRequest_falsyPath (dec : Option String → Option String)
    (q : QueueMapValue) (w : String) (wd : WorkerData)
    (hw : lookupWorker q.workers w = some wd)
    (hf : q.isStalledJobsProcessingComplete = false)
    (xs : List String) (hs : q.store.stalled = "" :: xs) :
    onJobsRequest dec q w =
      (if (getJobs dec (getJobs dec q.store .stalled).2 .pending).1.isEmpty then
        ({ q with
            store := (getJobs dec (getJobs dec q.store .stalled).2 .pending).2
            isStalledJobsProcessingComplete := true }, false)
      else
        ({ q with
            store := (getJobs dec (getJobs dec q.store .stalled).2 .pending).2
            isStalledJobsProcessingComplete := true
            workers := setWorker q.workers w
              { wd with jobs := wd.jobs ++
                  (getJobs dec (getJobs dec q.store .stalled).2 .pending).1 } },
          true)) := by
  have hs' : q.store.getList .stalled = "" :: xs := hs
  have h1 : (getJobs dec q.store .stalled).1 = [] :=
    (getJobs_falsy_head dec q.store .stalled xs (by decide) hs').1
  simp only [onJobsRequest, hw]
  simp [hf, h1]

/-- **C3.** The stalled-recovery pass is one-shot per queue. While the
completion flag is unset a pool-request fetches from STALLED first: with
STALLED headed by a regular id the fetch pops that head (PENDING
untouched) and the flag stays unset; the first time the STALLED fetch
returns empty — because the list is empty, or because its head is the
JS-falsy empty-string id, which the fetch moves but drops — the flag is
set. Once the flag is set a pool-request leaves the STALLED list
untouched and the store evolves exactly by a PENDING fetch, with the flag
staying set — and neither `startWorkerPool` nor a later `addWorker` ever
unsets it, so for the rest of the process's life STALLED is never
fetched again. -/
theorem stalledFirst_oneShot (dec : Option String → Option String)
    (q : QueueMapValue) (w : String) (wd : WorkerData)
    (hw : lookupWorker q.workers w = some wd) :
    (q.isStalledJobsProcessingComplete = false → q.store.stalled = [] →
      (onJobsRequest dec q w).1.isStalledJobsProcessingComplete = true)
    ∧ (q.isStalledJobsProcessingComplete = false →
        ∀ x xs, x ≠ "" → q.store.stalled = x :: xs →
          (onJobsRequest dec q w).1.store.stalled = xs
          ∧ (onJobsRequest dec q w).1.store.running = q.store.running ++ [x]
          ∧ (onJobsRequest dec q w).1.store.pending = q.store.pending
          ∧ (onJobsRequest dec q w).1.isStalledJobsProcessingComplete = false)
    ∧ (q.isStalledJobsProcessingComplete = false →
        ∀ xs, q.store.stalled = "" :: xs →
          (onJobsRequest dec q w).1.isStalledJobsProcessingComplete = true
          ∧ (onJobsRequest dec q w).1.store.stalled = xs)
    ∧ (q.isStalledJobsProcessingComplete = true →
        (onJobsRequest dec q w).1.store.stalled = q.store.stalled
        ∧ (onJobsRequest dec q w).1.store = (getJobs dec q.store .pending).2
        ∧ (onJobsRequest dec q w).1.isStalledJobsProcessingComplete = true)
    ∧ (q.isStalledJobsProcessingComplete = true →
        (startWorkerPool q).isStalledJobsProcessingComplete = true)
    ∧ (∀ w', q.isStalledJobsProcessingComplete = true →
        (addWorker q w').1.isStalledJobsProcessingComplete = true) := by
  have hstalled_pres :
      (getJobs dec q.store .pending).2.stalled = q.store.stalled :=
    getJobs_frame dec q.store .pending 1 .stalled (by decide) (by decide)
  refine ⟨?_, ?_, ?_, ?_, ?_, ?_⟩
  · intro hf hs
    rw [onJobsRequest_pendingPath dec q w wd hw (Or.inr ⟨hf, hs⟩)]
    by_cases hp : (getJobs dec q.store .pending).1.isEmpty <;> simp [hp]
  · intro hf x xs hx hs
    rw [onJobsRequest_stalledPath dec q w wd hw hf x xs hx hs]
    have hs' : q.store.getList .stalled = x :: xs := hs
    have h0 : "" ∉ (q.store.getList .stalled).take 1 := by
      rw [hs']
      simpa using fun hc => hx hc.symm
    have hsp := getJobs_spec dec q.store .stalled 1 (by decide) h0
    refine ⟨?_, ?_, ?_, rfl⟩
    · have := hsp.2.2.1
      rw [hs'] at this
      exact this
    · have := hsp.2.2.2.1
      rw [hs'] at this
      exact this
    · exact hsp.2.2.2.2.2.2.1 .pending (by decide) (by decide)
  · intro hf xs hs
    rw [onJobsRequest_falsyPath dec q w wd hw hf xs hs]
    have hs' : q.store.getList .stalled = "" :: xs := hs
    have hfh := getJobs_falsy_head dec q.store .stalled xs (by decide) hs'
    have hpres :
        (getJobs dec (getJobs dec q.store .stalled).2 .pending).2.stalled
          = xs := by
      show (getJobs dec (getJobs dec q.store .stalled).2
          .pending).2.getList .stalled = xs
      rw [getJobs_frame dec (getJobs dec q.store .stalled).2 .pending 1
        .stalled (by decide) (by decide)]
      exact hfh.2.1
    by_cases hp :
        (getJobs dec (getJobs dec q.store .stalled).2 .pending).1.isEmpty <;>
      simp [hp, hpres]
  · intro hf
    rw [onJobsRequest_pendingPath dec q w wd hw (Or.inl hf)]
    by_cases hp : (getJobs dec q.store .pending).1.isEmpty <;>
      simp [hp, hstalled_pres]
  · intro hf
    simp [startWorkerPool, hf]
  · intro w' hf
    by_cases hwk : q.workers.isEmpty <;>
      simp [addWorker, hwk, startWorkerPool, hf]

/-- Witness for C3: a queue with one idle worker, flag unset, STALLED
empty — one pool-request sets the completion flag. -/
theorem stalledFirst_oneShot_witness :
    (onJobsRequest id ⟨s0, [("w", ⟨[], .idle⟩)], "", false⟩
        "w").1.isStalledJobsProcessingComplete = true :=
  (stalledFirst_oneShot id ⟨s0, [("w", ⟨[], .idle⟩)], "", false⟩ "w"
    ⟨[], .idle⟩ (by decide)).1 rfl rfl

/-- A queue mid stalled-pass whose STALLED list is headed by the falsy
empty-string id while a regular job waits in PENDING. -/
def qFalsy : QueueMapValue :=
  ⟨⟨[], ["a"], [], [""], [], []⟩, [("w", ⟨[], .idle⟩)], "", false⟩

/-- **C10** (counterexample to the claim as stated). One pool-request can
move *two* ids into RUNNING: the stalled fetch `lmove`s the falsy
empty-string head and returns no job, and the request then also fetches
from PENDING, moving a second id. -/
theorem fetchLimit_falsy :
    (onJobsRequest id qFalsy "w").1.store.running = ["", "a"]
    ∧ ¬((onJobsRequest id qFalsy "w").1.store.running.length
        ≤ qFalsy.store.running.length + 1) := by
  exact ⟨by decide, by decide⟩

/-- **C10** (amended). The per-request fetch limit is the `getJobs`
default, 1: `onJobsRequest` calls `getJobs` with no explicit limit (last
conjunct: the elaborated call *is* the limit-1 call), so one pool-request
appends at most one job to the targeted worker's local batch and moves at
most two ids into RUNNING — one per fetch, and only the falsy-headed
stalled fetch (which moves an id yet returns nothing, letting the PENDING
fetch also run) reaches two: with the stalled pass complete, STALLED
empty, or STALLED headed by a regular id, at most one id moves. -/
theorem fetchLimitOne (dec : Option String → Option String)
    (q : QueueMapValue) (w : String) :
    (onJobsRequest dec q w).1.store.running.length
        ≤ q.store.running.length + 2
    ∧ (q.isStalledJobsProcessingComplete = true →
        (onJobsRequest dec q w).1.store.running.length
          ≤ q.store.running.length + 1)
    ∧ (q.isStalledJobsProcessingComplete = false → q.store.stalled = [] →
        (onJobsRequest dec q w).1.store.running.length
          ≤ q.store.running.length + 1)
    ∧ (q.isStalledJobsProcessingComplete = false →
        ∀ x xs, x ≠ "" → q.store.stalled = x :: xs →
          (onJobsRequest dec q w).1.store.running.length
            ≤ q.store.running.length + 1)
    ∧ (∀ wd, lookupWorker q.workers w = some wd →
        ∃ js : List QJob, js.length ≤ 1
          ∧ lookupWorker (onJobsRequest dec q w).1.workers w
              = some { wd with jobs := wd.jobs ++ js })
    ∧ (∀ (s : QueueStore) (f : Status), getJobs dec s f = getJobs dec s f 1) := by
  have hpendrun : (getJobs dec q.store .pending).2.running.length
      ≤ q.store.running.length + 1 :=
    getJobs_running_le dec q.store .pending 1 (by decide)
  have hstallrun : (getJobs dec q.store .stalled).2.running.length
      ≤ q.store.running.length + 1 :=
    getJobs_running_le dec q.store .stalled 1 (by decide)
  have hfalsyrun :
      (getJobs dec (getJobs dec q.store .stalled).2 .pending).2.running.length
        ≤ q.store.running.length + 2 := by
    calc (getJobs dec (getJobs dec q.store .stalled).2 .pending).2.running.length
        ≤ (getJobs dec q.store .stalled).2.running.length + 1 :=
          getJobs_running_le dec _ .pending 1 (by decide)
      _ ≤ q.store.running.length + 2 := by omega
  have hpendone : q.isStalledJobsProcessingComplete = true →
      ∀ wd, lookupWorker q.workers w = some wd →
        (onJobsRequest dec q w).1.store.running.length
          ≤ q.store.running.length + 1 := by
    intro hf wd hw
    rw [onJobsRequest_pendingPath dec q w wd hw (Or.inl hf)]
    by_cases hp : (getJobs dec q.store .pending).1.isEmpty <;>
      simpa [hp] using hpendrun
  refine ⟨?_, ?_, ?_, ?_, ?_, fun _ _ => rfl⟩
  · cases hw : lookupWorker q.workers w with
    | none => simp [onJobsRequest, hw]
    | some wd =>
        cases hf : q.isStalledJobsProcessingComplete with
        | true =>
            calc (onJobsRequest dec q w).1.store.running.length
                ≤ q.store.running.length + 1 := hpendone hf wd hw
              _ ≤ q.store.running.length + 2 := by omega
        | false =>
            cases hs : q.store.stalled with
            | nil =>
                rw [onJobsRequest_pendingPath dec q w wd hw (Or.inr ⟨hf, hs⟩)]
                by_cases hp : (getJobs dec q.store .pending).1.isEmpty <;>
                  · simp only [hp]
                    simp
                    omega
            | cons x xs =>
                by_cases hx : x = ""
                · subst hx
                  rw [onJobsRequest_falsyPath dec q w wd hw hf xs hs]
                  by_cases hp : (getJobs dec
                      (getJobs dec q.store .stalled).2 .pending).1.isEmpty <;>
                    simpa [hp] using hfalsyrun
                · rw [onJobsRequest_stalledPath dec q w wd hw hf x xs hx hs]
                  calc (getJobs dec q.store .stalled).2.running.length
                      ≤ q.store.running.length + 1 := hstallrun
                    _ ≤ q.store.running.length + 2 := by omega
  · intro hf
    cases hw : lookupWorker q.workers w with
    | none => simp [onJobsRequest, hw]
    | some wd => exact hpendone hf wd hw
  · intro hf hs
    cases hw : lookupWorker q.workers w with
    | none => simp [onJobsRequest, hw]
    | some wd =>
        rw [onJobsRequest_pendingPath dec q w wd hw (Or.inr ⟨hf, hs⟩)]
        by_cases hp : (getJobs dec q.store .pending).1.isEmpty <;>
          simpa [hp] using hpendrun
  · intro hf x xs hx hs
    cases hw : lookupWorker q.workers w with
    | none => simp [onJobsRequest, hw]
    | some wd =>
        rw [onJobsRequest_stalledPath dec q w wd hw hf x xs hx hs]
        exact hstallrun
  · intro wd hw
    cases hf : q.isStalledJobsProcessingComplete with
    | true =>
        rw [onJobsRequest_pendingPath dec q w wd hw (Or.inl hf)]
        by_cases hp : (getJobs dec q.store .pending).1.isEmpty
        · exact ⟨[], by simp, by simpa [hp] using hw⟩
        · exact ⟨(getJobs dec q.store .pending).1,
            getJobs_len_le dec q.store .pending 1,
            by simp [hp, lookupWorker_setWorker_self]⟩
    | false =>
        cases hs : q.store.stalled with
        | nil =>
            rw [onJobsRequest_pendingPath dec q w wd hw (Or.inr ⟨hf, hs⟩)]
            by_cases hp : (getJobs dec q.store .pending).1.isEmpty
            · exact ⟨[], by simp, by simpa [hp] using hw⟩
            · exact ⟨(getJobs dec q.store .pending).1,
                getJobs_len_le dec q.store .pending 1,
                by simp [hp, lookupWorker_setWorker_self]⟩
        | cons x xs =>
            by_cases hx : x = ""
            · subst hx
              rw [onJobsRequest_falsyPath dec q w wd hw hf xs hs]
              by_cases hp : (getJobs dec
                  (getJobs dec q.store .stalled).2 .pending).1.isEmpty
              · exact ⟨[], by simp, by simpa [hp] using hw⟩
              · exact ⟨(getJobs dec (getJobs dec q.store .stalled).2 .pending).1,
                  getJobs_len_le dec _ .pending 1,
                  by simp [hp, lookupWorker_setWorker_self]⟩
            · rw [onJobsRequest_stalledPath dec q w wd hw hf x xs hx hs]
              exact ⟨(getJobs dec q.store .stalled).1,
                getJobs_len_le dec q.store .stalled 1,
                by simp [lookupWorker_setWorker_self]⟩

/-- Witness for C10 at a concrete queue: one pending job, one idle
worker, stalled pass complete; after the pool-request RUNNING has grown
by at most one and the worker's batch holds at most one job. -/
theorem fetchLimitOne_witness :
    (onJobsRequest id ⟨(addJob s0 "a" "x").2, [("w", ⟨[], .idle⟩)], "", true⟩
        "w").1.store.running.length
      ≤ ((addJob s0 "a" "x").2 : QueueStore).running.length + 1
    ∧ (∃ js : List QJob, js.length ≤ 1
        ∧ lookupWorker (onJobsRequest id
            ⟨(addJob s0 "a" "x").2, [("w", ⟨[], .idle⟩)], "", true⟩
            "w").1.workers "w"
          = some ⟨([] : List QJob) ++ js, .idle⟩) :=
  ⟨(fetchLimitOne id ⟨(addJob s0 "a" "x").2, [("w", ⟨[], .idle⟩)], "", true⟩
      "w").2.1 rfl,
    (fetchLimitOne id ⟨(addJob s0 "a" "x").2, [("w", ⟨[], .idle⟩)], "", true⟩
      "w").2.2.2.2.1 ⟨[], .idle⟩ (by decide)⟩

/-- **C5.** Registering the queue's first worker runs
`moveJobsBetweenLists(RUNNING, STALLED)` strictly before the queue's
event listeners are activated (the action trace is exactly move,
listener-activation, worker-added-emit, in that order), and when the move
returns no jobs the stalled-recovery flag is set immediately; registering
a further worker performs no move at all and leaves store and flag
untouched. -/
theorem addWorker_startup (q : QueueMapValue) (w : String) :
    (q.workers = [] →
      (addWorker q w).2
        = [.moveAllRunningStalled q.store.running, .activateListeners,
            .emitWorkerAdd w]
      ∧ (addWorker q w).1.store
          = (moveJobsBetweenLists q.store .running .stalled).2
      ∧ (q.store.running = [] →
          (addWorker q w).1.isStalledJobsProcessingComplete = true))
    ∧ (q.workers ≠ [] →
        (addWorker q w).2 = [.emitWorkerAdd w]
        ∧ (∀ ids, EngineAction.moveAllRunningStalled ids ∉ (addWorker q w).2)
        ∧ (addWorker q w).1.store = q.store
        ∧ (addWorker q w).1.isStalledJobsProcessingComplete
            = q.isStalledJobsProcessingComplete) := by
  constructor
  · intro hq
    have hq' : q.workers.isEmpty = true := by rw [hq]; rfl
    refine ⟨?_, ?_, ?_⟩
    · simp [addWorker, hq']
      rfl
    · simp [addWorker, hq', startWorkerPool]
    · intro hrun
      have hrun' : (moveJobsBetweenLists
          { q with workers := setWorker q.workers w ⟨[], .idle⟩ }.store
          .running .stalled).1.isEmpty = true := by
        show q.store.running.isEmpty = true
        rw [hrun]; rfl
      simp [addWorker, hq', startWorkerPool, hrun']
  · intro hq
    have hq' : q.workers.isEmpty = false := by
      cases hws : q.workers with
      | nil => exact absurd hws hq
      | cons a t => rfl
    refine ⟨by simp [addWorker, hq'], ?_, by simp [addWorker, hq'], by simp [addWorker, hq']⟩
    intro ids
    simp [addWorker, hq']

/-- Witness for C5: first-worker registration on the restart store traces
the move before listener activation; a second registration emits only
worker-added. -/
theorem addWorker_startup_witness :
    (addWorker ⟨sRestart, [], "", false⟩ "w").2
      = [.moveAllRunningStalled ["a", "b"], .activateListeners,
          .emitWorkerAdd "w"]
    ∧ (addWorker ⟨sRestart, [("v", ⟨[], .idle⟩)], "", false⟩ "w").2
      = [.emitWorkerAdd "w"] :=
  ⟨((addWorker_startup ⟨sRestart, [], "", false⟩ "w").1 rfl).1,
    ((addWorker_startup ⟨sRestart, [("v", ⟨[], .idle⟩)], "", false⟩ "w").2
      (by decide)).1⟩

/-! ## `engineStart` (queue registration) -/

theorem lookupQueue_append_self (l : List (String × QueueMapValue))
    (n : String) (v : QueueMapValue) (h : lookupQueue l n = none) :
    lookupQueue (l ++ [(n, v)]) n = some v := by
  induction l with
  | nil => simp [lookupQueue]
  | cons p t ih =>
      obtain ⟨k, q⟩ := p
      by_cases hk : k = n
      · subst hk; simp [lookupQueue] at h
      · simp only [lookupQueue, if_neg hk] at h
        simpa [lookupQueue, hk] using ih h

theorem lookupQueue_append_ne (l : List (String × QueueMapValue))
    (n m : String) (v : QueueMapValue) (h : m ≠ n) :
    lookupQueue (l ++ [(n, v)]) m = lookupQueue l m := by
  induction l with
  | nil => simp [lookupQueue, Ne.symm h]
  | cons p t ih =>
      obtain ⟨k, q⟩ := p
      by_cases hk : k = m
      · subst hk; simp [lookupQueue]
      · simpa [lookupQueue, hk] using ih

/-- **C6** (counterexample to the claim as stated). A call whose queue
name is already registered but which carries no resolvable store handle
fails with the missing-store error, not `AlreadyExists`: the `!queue.db`
throw precedes the `checkExisting` duplicate check. -/
theorem engineStart_dup_without_db :
    (engineStart ⟨[("q", ⟨s0, [], "", false⟩)]⟩ "q" false s0).1
        = some DBError.missingDb
    ∧ (engineStart ⟨[("q", ⟨s0, [], "", false⟩)]⟩ "q" false s0).1
        ≠ some (DBError.alreadyExists "q") := by
  exact ⟨rfl, by decide⟩

/-- **C6** (amended). `QueuifyEngine.start` fails with the missing-store
error whenever no store handle is resolvable — this check runs first, so
it wins even for a duplicate name; with a store handle present it fails
with `AlreadyExists` exactly when the name is taken. Every failure
returns synchronously with the queue map untouched; on success a fresh
Queue Runtime State (empty registry, empty idle cursor, stalled flag
unset) is registered under the name and no other entry changes. -/
theorem engineStart_spec (e : Engine) (n : String) (st : QueueStore) :
    engineStart e n false st = (some .missingDb, e)
    ∧ (lookupQueue e.queues n ≠ none →
        engineStart e n true st = (some (.alreadyExists n), e))
    ∧ (lookupQueue e.queues n = none →
        (engineStart e n true st).1 = none
        ∧ lookupQueue (engineStart e n true st).2.queues n
            = some ⟨st, [], "", false⟩
        ∧ ∀ m, m ≠ n →
            lookupQueue (engineStart e n true st).2.queues m
              = lookupQueue e.queues m) := by
  refine ⟨rfl, ?_, ?_⟩
  · intro hne
    have hs : (lookupQueue e.queues n).isSome = true :=
      Option.isSome_iff_ne_none.mpr hne
    simp [engineStart, hs]
  · intro hnone
    have hs : (lookupQueue e.queues n).isSome = false := by
      rw [hnone]; rfl
    refine ⟨by simp [engineStart, hs], ?_, ?_⟩
    · simp only [engineStart, hs]
      simp
      exact lookupQueue_append_self e.queues n _ hnone
    · intro m hm
      simp only [engineStart, hs]
      simp
      exact lookupQueue_append_ne e.queues n m _ hm

/-- Witness for the amended C6: registering `"q"` on an empty engine
succeeds and creates its runtime state; re-registering `"q"` (with a
store) fails with `AlreadyExists` and changes nothing. -/
theorem engineStart_spec_witness :
    (engineStart ⟨[]⟩ "q" true s0).1 = none
    ∧ lookupQueue (engineStart ⟨[]⟩ "q" true s0).2.queues "q"
        = some ⟨s0, [], "", false⟩
    ∧ engineStart ⟨[("q", ⟨s0, [], "", false⟩)]⟩ "q" true s0
        = (some (.alreadyExists "q"), ⟨[("q", ⟨s0, [], "", false⟩)]⟩) :=
  ⟨((engineStart_spec ⟨[]⟩ "q" s0).2.2 rfl).1,
    ((engineStart_spec ⟨[]⟩ "q" s0).2.2 rfl).2.1,
    (engineStart_spec ⟨[("q", ⟨s0, [], "", false⟩)]⟩ "q" s0).2.1 (by decide)⟩

/-- **C8.** Each dispatch-protocol step preserves the idle/busy invariant:
a worker marked idle has an empty local batch (and no outstanding
countdown forces a non-empty batch), a step that dispatches jobs leaves
the worker marked busy with a fully drained batch, and a step that ends
with the worker idle dispatched nothing — so local-execution dispatch
never happens from the idle marking, and idle is never entered with a
non-empty batch. -/
theorem dispatch_idle_busy_invariant (s s' : WorkerPState) (ds : List QJob)
    (hInv : WorkerInv s) (hstep : ProtoStep s ds s') :
    WorkerInv s'
    ∧ (ds ≠ [] → s'.status = .busy ∧ s'.jobs = [])
    ∧ (s'.status = .idle → ds = []) := by
  obtain ⟨h1, h2⟩ := hInv
  cases hstep with
  | emptyBatch h =>
      exact ⟨⟨fun _ => h, fun _ => h⟩, fun hd => absurd rfl hd, fun _ => rfl⟩
  | busyDrain h =>
      refine ⟨⟨fun hid => by simp at hid, fun _ => rfl⟩, fun _ => ⟨rfl, rfl⟩, ?_⟩
      intro hid
      simp at hid
  | finishMid h =>
      refine ⟨⟨h1, fun _ => h2 (by omega)⟩, fun hd => absurd rfl hd, fun _ => rfl⟩
  | finishLast h =>
      refine ⟨⟨fun _ => h2 (by omega), fun _ => h2 (by omega)⟩,
        fun hd => absurd rfl hd, fun _ => rfl⟩

/-- Witness for C8: draining a busy worker's one-job batch dispatches the
job with the worker busy and batch drained, preserving the invariant. -/
theorem dispatch_idle_busy_invariant_witness :
    WorkerInv ⟨[], .busy, 1⟩
    ∧ (([⟨some "a", some "x"⟩] : List QJob) ≠ [] →
        WorkerPState.status ⟨[], .busy, 1⟩ = .busy
        ∧ WorkerPState.jobs ⟨[], .busy, 1⟩ = [])
    ∧ (WorkerPState.status ⟨[], .busy, 1⟩ = .idle →
        ([⟨some "a", some "x"⟩] : List QJob) = []) :=
  dispatch_idle_busy_invariant ⟨[⟨some "a", some "x"⟩], .busy, 0⟩
    ⟨[], .busy, 1⟩ [⟨some "a", some "x"⟩]
    ⟨fun h => absurd h (by decide), fun h => absurd h (by decide)⟩
    (ProtoStep.busyDrain ⟨[⟨some "a", some "x"⟩], .busy, 0⟩ (by decide))

end Queuify
